import Mathlib

/-!
Verification of the launchpad effect-composition library.

The Python source is shallowly embedded:
* colors are either palette intensities (`Int`) or RGB triples of rationals
  (Python floats in unit range);
* the `Effect` class hierarchy becomes an inductive type whose composite
  constructors store exactly the fields the Python objects hold (including
  `Rectangle`'s precomputed note cache and `Random`'s mutable
  `current_effect` selection state);
* `notes` (the render method) threads an explicit pseudo-random oracle
  `g : Nat → Nat` with a draw counter, returns the possibly-updated effect
  tree (Python mutates objects in place), and returns
  `Except Err (Option (List Note) × Effect × Nat)`: Python exceptions are
  `Err` values, and Python's implicit `return None` (as in
  `Sequential.notes` falling off the loop) is the `none` result, distinct
  from an empty note list `some []`.
-/

namespace LaunchpadFw

/-- A Python exception raised during rendering. -/
inductive Err where
  | valueError  -- random.randint with lo > hi
  | typeError   -- iterating or indexing with None
  | zeroDiv     -- modulo by zero
  | indexError  -- list index out of range
  deriving DecidableEq, Repr

/-- A cell color: either a palette intensity (Python int) or an RGB triple
(Python floats, here rationals). -/
inductive Color where
  | palette (v : Int)
  | rgb (r g b : ℚ)
  deriving DecidableEq, Repr

/-- A positioned color: class `Note`'s data (a position pair and a color). -/
structure Note where
  pos : Int × Int
  color : Color
  deriving DecidableEq, Repr

/-- The effect algebra.  Composite constructors hold exactly what the Python
objects hold: `rectangle` stores its precomputed `_notes` cache,
`padded` stores the target length and the precomputed pad notes,
`random` stores the padded child list together with the mutable
`current_effect` field, and `colorWheel` stores the constructor's
geometric parameters (floats, embedded as rationals) plus its configured
`_length`. -/
inductive Effect where
  | note (pos : Int × Int) (color : Color)
  | rectangle (cache : List Note)
  | translate (child : Effect) (offset : Int × Int)
  | sequential (effects : List Effect)
  | concurrent (effects : List Effect)
  | loop (child : Effect) (n : Nat)
  | padded (effect : Effect) (len : Nat) (padNotes : List Note)
  | random (effects : List Effect) (currentEffect : Option Nat)
  | randomColor (child : Effect) (low high : Int)
  | colorWheel (center : ℚ × ℚ) (max_radius : ℚ) (start_theta delta_theta : ℚ)
      (len : Nat)

mutual

/-- Method `length`, per variant (`Effect.length` plus overrides). -/
def Effect.length : Effect → Nat
  | .note _ _ => 1
  | .rectangle _ => 1
  | .translate child _ => child.length
  | .sequential effects => lengthSum effects
  | .concurrent effects =>
    match effects with
    | [] => 0
    | e :: _ => e.length
  | .loop child n => child.length * n
  | .padded _ len _ => len
  | .random effects _ =>
    match effects with
    | [] => 0
    | e :: _ => e.length
  | .randomColor child _ _ => child.length
  | .colorWheel _ _ _ _ len => len

/-- The summation loop in `Sequential.length`. -/
def lengthSum : List Effect → Nat
  | [] => 0
  | e :: rest => e.length + lengthSum rest

end

/-- Integers `a .. b` inclusive, i.e. Python `range(a, b + 1)`. -/
def rangeIncl (a b : Int) : List Int :=
  (List.range (b + 1 - a).toNat).map (fun i => a + i)

/-- Constructor `Rectangle.__init__`: precompute the note cache for the inclusive box,
`x` in the outer loop, `y` in the inner loop. -/
def Rectangle (ll ur : Int × Int) (color : Color) : Effect :=
  .rectangle ((rangeIncl ll.1 ur.1).flatMap fun x =>
    (rangeIncl ll.2 ur.2).map fun y => Note.mk (x, y) color)

/-- Lambda `Fullscreen = lambda color: Rectangle((-1, -1), (8, 8), color)`. -/
def Fullscreen (color : Color) : Effect := Rectangle (-1, -1) (8, 8) color

/-- Lambda `Clear = lambda: Fullscreen(0)`. -/
def Clear : Effect := Fullscreen (.palette 0)

/-- The maximum child length used by `pad_effects`
(`max(effects, key=lambda x: x.length()).length()`). -/
def maxLength (effects : List Effect) : Nat :=
  effects.foldr (fun e m => max e.length m) 0

/-- Function `pad_effects`: wrap every strictly shorter child in a `PaddedEffect`
carrying the group maximum length and the precomputed pad notes. -/
def pad_effects (effects : List Effect) (pad_func : Effect → List Note) :
    List Effect :=
  match effects with
  | [] => []
  | _ =>
    let len := maxLength effects
    effects.map (fun e =>
      if e.length < len then .padded e len (pad_func e) else e)

/-- Constructor `Concurrent.__init__`: pad the children (default pad function). -/
def Concurrent (effects : List Effect) : Effect :=
  .concurrent (pad_effects effects (fun _ => []))

/-- Constructor `Random.__init__`: pad the children, no selection held yet. -/
def Random (effects : List Effect) : Effect :=
  .random (pad_effects effects (fun _ => [])) none

/-- Model of `random.randint(lo, hi)`: raises `ValueError` when `lo > hi`, otherwise
returns a value in `[lo, hi]` drawn from the oracle, consuming one draw. -/
def randint (lo hi : Int) (g : Nat → Nat) (k : Nat) : Except Err (Int × Nat) :=
  if lo > hi then .error .valueError
  else .ok (lo + (g k : Int) % (hi - lo + 1), k + 1)

/-- The index adjustment in `Random.notes`' reselection branch:
`if current_effect >= self.current_effect: current_effect += 1`. -/
def reselect (held : Nat) (r : Int) : Int :=
  if r ≥ (held : Int) then r + 1 else r

/-- Shift one note, as in `Translate.notes`' list comprehension. -/
def shiftNote (offset : Int × Int) (n : Note) : Note :=
  ⟨(n.pos.1 + offset.1, n.pos.2 + offset.2), n.color⟩

/-- The loop body of `RandomColor.notes`: deep-copy each note and overwrite
the copy's color with a fresh `randint(low, high)` palette draw. -/
def recolor (ns : List Note) (low high : Int) (g : Nat → Nat) (k : Nat) :
    Except Err (List Note × Nat) :=
  match ns with
  | [] => .ok ([], k)
  | n :: rest =>
    match randint low high g k with
    | .error e => .error e
    | .ok (c, k') =>
      match recolor rest low high g k' with
      | .error e => .error e
      | .ok (rest', k'') => .ok (Note.mk n.pos (.palette c) :: rest', k'')

/-- Python `int()` applied to a float/rational: truncation toward zero. -/
def pyInt (q : ℚ) : Int := if q < 0 then ⌈q⌉ else ⌊q⌋

/-- Total rational surrogate for the float constant `math.pi`: every Python
float is an exact rational, but pi's value is a transcendental-rounding
artifact no claim depends on; only totality of the arithmetic around it
matters here. -/
def piQ : ℚ := 355 / 113

/-- Total rational surrogate for `** 0.5` on a non-negative float (used
twice for the wheel's saturation).  The library operation is total on the
wheel's non-negative inputs; its irrational values are outside the
rational embedding and no claim depends on them. -/
def sqrtQ (q : ℚ) : ℚ := (Nat.sqrt (q.num.toNat * q.den) : ℚ) / (q.den : ℚ)

/-- Total rational surrogate for `math.atan2`, which is total on all float
inputs (`atan2(0, 0) = 0`, no exception); its transcendental values are
outside the rational embedding and no claim depends on them. -/
def atan2Q (y x : ℚ) : ℚ := if x = 0 ∧ y = 0 then 0 else y / (|x| + |y|)

/-- Exact model of Python's float `%` for a positive modulus:
`a % m = a - m * floor(a / m)`. -/
def fmodQ (a m : ℚ) : ℚ := a - m * ⌊a / m⌋

/-- Exact rational model of `colorsys.hsv_to_rgb` (the library function is
pure rational arithmetic: truncation, multiplication, branching on the
sextant index). -/
def hsv_to_rgb (h s v : ℚ) : ℚ × ℚ × ℚ :=
  if s = 0 then (v, v, v)
  else
    let i0 := pyInt (h * 6)
    let f := h * 6 - (i0 : ℚ)
    let p := v * (1 - s)
    let q := v * (1 - s * f)
    let t := v * (1 - s * (1 - f))
    let i := i0 % 6
    if i = 0 then (v, t, p)
    else if i = 1 then (q, v, p)
    else if i = 2 then (p, v, t)
    else if i = 3 then (p, q, v)
    else if i = 4 then (t, p, v)
    else (v, p, q)

/-- The double loop of `ColorWheel.notes` (x outer, y inner over the full
buffer `[-1, 8]²`), evaluated after the division guards: polar
coordinates scaled by the radius, hue from the angle shifted by the phase
and wrapped modulo `2π`, saturation `(dx² + dy²) ** 0.25`, value `0.2`,
converted HSV→RGB into one positioned RGB color per cell. -/
def wheelNotes (center : ℚ × ℚ) (max_radius start_theta theta_offset : ℚ) :
    List Note :=
  (rangeIncl (-1) 8).flatMap fun (x : Int) =>
    (rangeIncl (-1) 8).map fun (y : Int) =>
      let new_x := ((x : ℚ) - center.1) / max_radius
      let new_y := ((y : ℚ) - center.2) / max_radius
      let h := fmodQ (atan2Q new_y new_x - start_theta - theta_offset)
        (2 * piQ) / (2 * piQ)
      let s := sqrtQ (sqrtQ (new_x ^ 2 + new_y ^ 2))
      let rgb := hsv_to_rgb h s (1/5)
      Note.mk (x, y) (.rgb rgb.1 rgb.2.1 rgb.2.2)

mutual

/-- The `notes(tick)` render method.  Returns the rendered value (`none` is
Python's `None`), the updated effect tree (Python mutation in place), and
the advanced draw counter; Python exceptions are `Err` values. -/
def Effect.notes : Effect → Nat → (Nat → Nat) → Nat →
    Except Err (Option (List Note) × Effect × Nat)
  | .note pos color, _, _, k => .ok (some [⟨pos, color⟩], .note pos color, k)
  | .rectangle cache, _, _, k => .ok (some cache, .rectangle cache, k)
  | .translate child offset, tick, g, k =>
    match child.notes tick g k with
    | .error e => .error e
    | .ok (none, _, _) => .error .typeError
    | .ok (some ns, child', k') =>
      .ok (some (ns.map (shiftNote offset)), .translate child' offset, k')
  | .sequential effects, tick, g, k =>
    match seqNotes effects tick g k with
    | .error e => .error e
    | .ok (r, effects', k') => .ok (r, .sequential effects', k')
  | .concurrent effects, tick, g, k =>
    match concNotes effects tick g k with
    | .error e => .error e
    | .ok (ns, effects', k') => .ok (some ns, .concurrent effects', k')
  | .loop child n, tick, g, k =>
    if child.length = 0 then .error .zeroDiv
    else
      match child.notes (tick % child.length) g k with
      | .error e => .error e
      | .ok (r, child', k') => .ok (r, .loop child' n, k')
  | .padded effect len padNotes, tick, g, k =>
    if tick < effect.length then
      match effect.notes tick g k with
      | .error e => .error e
      | .ok (r, effect', k') => .ok (r, .padded effect' len padNotes, k')
    else .ok (some padNotes, .padded effect len padNotes, k)
  | .random effects cur, tick, g, k =>
    if effects.isEmpty then .ok (some [], .random effects cur, k)
    else
      let sel : Except Err (Nat × Nat) :=
        if tick = 0 then
          match cur with
          | none =>
            match randint 0 ((effects.length : Int) - 1) g k with
            | .error e => .error e
            | .ok (i, k') => .ok (i.toNat, k')
          | some held =>
            match randint 0 ((effects.length : Int) - 2) g k with
            | .error e => .error e
            | .ok (r, k') => .ok ((reselect held r).toNat, k')
        else
          match cur with
          | none => .error .typeError  -- self.effects[None]
          | some held => .ok (held, k)
      match sel with
      | .error e => .error e
      | .ok (i, k') =>
        if h : i < effects.length then
          let child := effects[i]
          if tick ≥ child.length then
            .ok (some [], .random effects (some i), k')
          else
            match child.notes tick g k' with
            | .error e => .error e
            | .ok (r, child', k'') =>
              .ok (r, .random (effects.set i child') (some i), k'')
        else .error .indexError
  | .randomColor child low high, tick, g, k =>
    match child.notes tick g k with
    | .error e => .error e
    | .ok (none, _, _) => .error .typeError
    | .ok (some ns, child', k') =>
      match recolor ns low high g k' with
      | .error e => .error e
      | .ok (ns', k'') => .ok (some ns', .randomColor child' low high, k'')
  | .colorWheel center max_radius start_theta delta_theta len, tick, _, k =>
    -- `theta_offset = tick / self.length() * self.delta_theta` raises on a
    -- zero length; the first `(x - center) / max_radius` in the loop raises
    -- on a zero radius (the guard is hoisted: every cell divides by it).
    if len = 0 then .error .zeroDiv
    else if max_radius = 0 then .error .zeroDiv
    else
      .ok (some (wheelNotes center max_radius start_theta
          ((tick : ℚ) / (len : ℚ) * delta_theta)),
        .colorWheel center max_radius start_theta delta_theta len, k)
termination_by e _ _ _ => sizeOf e
decreasing_by
  all_goals simp_wf
  all_goals try omega
  all_goals (have hm := List.sizeOf_lt_of_mem (List.getElem_mem h); omega)

/-- The child-locating loop of `Sequential.notes`: skip children whose
length the tick exceeds, rebasing the tick; falling off the end is
Python's implicit `return None`. -/
def seqNotes : List Effect → Nat → (Nat → Nat) → Nat →
    Except Err (Option (List Note) × List Effect × Nat)
  | [], _, _, k => .ok (none, [], k)
  | e :: rest, tick, g, k =>
    if tick ≥ e.length then
      match seqNotes rest (tick - e.length) g k with
      | .error er => .error er
      | .ok (r, rest', k') => .ok (r, e :: rest', k')
    else
      match e.notes tick g k with
      | .error er => .error er
      | .ok (r, e', k') => .ok (r, e' :: rest, k')
termination_by es _ _ _ => sizeOf es
decreasing_by
  all_goals simp_wf
  all_goals omega

/-- The accumulating loop of `Concurrent.notes`; extending the accumulator
with a child's `None` result is a `TypeError`. -/
def concNotes : List Effect → Nat → (Nat → Nat) → Nat →
    Except Err (List Note × List Effect × Nat)
  | [], _, _, k => .ok ([], [], k)
  | e :: rest, tick, g, k =>
    match e.notes tick g k with
    | .error er => .error er
    | .ok (none, _, _) => .error .typeError
    | .ok (some ns, e', k') =>
      match concNotes rest tick g k' with
      | .error er => .error er
      | .ok (acc, rest', k'') => .ok (ns ++ acc, e' :: rest', k'')
termination_by es _ _ _ => sizeOf es
decreasing_by
  all_goals simp_wf
  all_goals omega

end

/-- Constant `Launchpad.MAX_BRIGHTNESS`. -/
def MAX_BRIGHTNESS : Int := 63

/-- Function `brightness_of_compon`: scale a unit-range component by
`MAX_BRIGHTNESS`, truncate with `int()`, then clamp into
`[0, MAX_BRIGHTNESS]`. -/
def brightness_of_compon (c : ℚ) : Int :=
  let scaled := pyInt ((MAX_BRIGHTNESS : ℚ) * c)
  if scaled < 0 then 0
  else if scaled > MAX_BRIGHTNESS then MAX_BRIGHTNESS
  else scaled

/-- A MIDI message sent to the device: either a `note_on` palette update or
a system-exclusive RGB update. -/
inductive Msg where
  | noteOn (note : Nat) (velocity : Int)
  | sysex (data : List Int)
  deriving DecidableEq, Repr

/-- The fixed 6-byte sysex header (the local variable at the top of
`rgb_message`). -/
def sysexHeader : List Int := [0, 32, 41, 2, 16, 11]

/-- Function `rgb_message`: header followed by the note number and the three scaled
brightness components. -/
def rgb_message (midi_note : Nat) (r g b : ℚ) : Msg :=
  .sysex (sysexHeader ++
    [(midi_note : Int), brightness_of_compon r, brightness_of_compon g,
      brightness_of_compon b])

/-- The message construction inside `write_buf`'s loop: RGB colors become
sysex messages, palette colors become `note_on` messages. -/
def cellMsg (midi_note : Nat) (c : Color) : Msg :=
  match c with
  | .rgb r g b => rgb_message midi_note r g b
  | .palette v => .noteOn midi_note v

/-- Function `write_buf`: walk `zip(buf, back_buf)` with the enumeration index,
emitting one message per cell whose color differs. -/
def write_buf : List Color → List Color → Nat → List Msg
  | c :: cs, b :: bs, i =>
    (if c ≠ b then [cellMsg i c] else []) ++ write_buf cs bs (i + 1)
  | _, _, _ => []

/-- One iteration of `draw_effect`'s loop: compute the linear MIDI index
`y * 10 + x + 11` and store the color when the index is inside the
buffer, otherwise leave the buffer untouched. -/
def draw_note (buf : List Color) (n : Note) : List Color :=
  let midi : Int := n.pos.2 * 10 + n.pos.1 + 11
  if 0 ≤ midi ∧ midi < (buf.length : Int) then buf.set midi.toNat n.color
  else buf

/-- Function `draw_effect` applied to an already-rendered note list. -/
def draw_effect (buf : List Color) (ns : List Note) : List Color :=
  ns.foldl draw_note buf

/-- The all-off buffer: `10 * 10` cells of palette intensity `0`, as
allocated in `Launchpad.__init__` and re-established by `reset_buf`. -/
def buf0 : List Color := List.replicate 100 (.palette 0)

/-- Brightness scaling as the specification describes it (nearest-integer
rounding, then clamping); stated only to compare with the source's
`brightness_of_compon`. -/
def specBrightness (c : ℚ) : Int :=
  max 0 (min MAX_BRIGHTNESS (round (c * (MAX_BRIGHTNESS : ℚ))))

/-- The `Sequential.notes` loop falls off the end once the tick is at or
past the total length, returning Python `None` with no child touched. -/
theorem seqNotes_past_end (es : List Effect) (tick : Nat) (g : Nat → Nat)
    (k : Nat) (h : lengthSum es ≤ tick) :
    seqNotes es tick g k = .ok (none, es, k) := by
  induction es generalizing tick with
  | nil => simp [seqNotes]
  | cons e rest ih =>
    rw [seqNotes.eq_2]
    rw [lengthSum] at h
    rw [if_pos (by omega), ih (tick - e.length) (by omega)]

/-- C1 (counterexample): the positioned color at `(9, 0)` — outside the
addressable range `x ∈ [-1, 8]` — is *not* dropped by the write step: its
linear index `0 * 10 + 9 + 11 = 20` is inside the buffer, so it changes
the buffer, overwriting exactly the cell that the in-range position
`(-1, 1)` also maps to. -/
theorem C1_counterexample :
    draw_note buf0 ⟨(9, 0), .palette 5⟩ ≠ buf0 ∧
    draw_note buf0 ⟨(9, 0), .palette 5⟩ = buf0.set 20 (.palette 5) ∧
    draw_note buf0 ⟨(-1, 1), .palette 7⟩ = buf0.set 20 (.palette 7) := by
  refine ⟨by decide, by decide, by decide⟩

/-- C1 (amended): the write step drops a positioned color precisely when
its linear index `y * 10 + x + 11` falls outside `[0, 100)` (never an
error); when the index is inside the buffer the color is written at that
index — even for positions outside `x, y ∈ [-1, 8]`, which can therefore
alias onto in-range cells.  Positions inside `[-1, 8]²` always have an
in-bounds index. -/
theorem C1_amended (buf : List Color) (n : Note) (hlen : buf.length = 100) :
    ((0 ≤ n.pos.2 * 10 + n.pos.1 + 11 ∧ n.pos.2 * 10 + n.pos.1 + 11 < 100) →
      draw_note buf n = buf.set (n.pos.2 * 10 + n.pos.1 + 11).toNat n.color) ∧
    (¬ (0 ≤ n.pos.2 * 10 + n.pos.1 + 11 ∧ n.pos.2 * 10 + n.pos.1 + 11 < 100) →
      draw_note buf n = buf) ∧
    (-1 ≤ n.pos.1 ∧ n.pos.1 ≤ 8 ∧ -1 ≤ n.pos.2 ∧ n.pos.2 ≤ 8 →
      0 ≤ n.pos.2 * 10 + n.pos.1 + 11 ∧ n.pos.2 * 10 + n.pos.1 + 11 < 100) := by
  refine ⟨fun h => ?_, fun h => ?_, fun h => by omega⟩
  · rw [draw_note, if_pos (by rw [hlen]; push_cast; omega)]
  · rw [draw_note, if_neg (by rw [hlen]; push_cast; omega)]

/-- C1 (amended) witness: the in-range position `(0, 0)` maps to index 11
and is written there. -/
theorem C1_amended_witness :
    draw_note buf0 ⟨(0, 0), .palette 3⟩ = buf0.set 11 (.palette 3) := by
  have h := C1_amended buf0 ⟨(0, 0), .palette 3⟩ (by decide)
  exact h.1 (by decide)

/-- C2 (counterexample): at component `c = 9/10` the source computes
`int(63 * 0.9) = 56` (truncation), while the claimed
`clamp(round(c * 63), 0, 63)` is `57`. -/
theorem C2_counterexample :
    brightness_of_compon (9/10) ≠ specBrightness (9/10) ∧
    brightness_of_compon (9/10) = 56 ∧ specBrightness (9/10) = 57 := by
  have h2 : pyInt ((63 : ℚ) * (9/10)) = 56 := by
    rw [pyInt, if_neg (by norm_num),
      show ((63 : ℚ) * (9/10)) = 567/10 by norm_num, Int.floor_eq_iff]
    norm_num
  have h3 : brightness_of_compon (9/10) = 56 := by
    simp [brightness_of_compon, MAX_BRIGHTNESS, h2]
  have h4 : specBrightness (9/10) = 57 := by
    have hf : (⌊(572/10 : ℚ)⌋ : Int) = 57 := by
      rw [Int.floor_eq_iff]
      norm_num
    rw [specBrightness, MAX_BRIGHTNESS,
      show ((9/10 : ℚ) * ((63 : Int) : ℚ)) = 567/10 by norm_num,
      round_eq, show (567/10 : ℚ) + 1/2 = 572/10 by norm_num, hf]
    decide
  exact ⟨by omega, h3, h4⟩

/-- C2 (amended): the scaled value is the truncation toward zero of
`c * 63` (Python `int()`), clamped into `[0, 63]`; out-of-range inputs
clamp rather than fail (`c ≥ 1` gives `63`, `c ≤ 0` gives `0`), and the
result always lies in `[0, 63]`. -/
theorem C2_amended (c : ℚ) :
    brightness_of_compon c =
      max 0 (min MAX_BRIGHTNESS (pyInt ((MAX_BRIGHTNESS : ℚ) * c))) ∧
    (1 ≤ c → brightness_of_compon c = MAX_BRIGHTNESS) ∧
    (c ≤ 0 → brightness_of_compon c = 0) ∧
    0 ≤ brightness_of_compon c ∧ brightness_of_compon c ≤ MAX_BRIGHTNESS := by
  have hMB : (MAX_BRIGHTNESS : Int) = 63 := rfl
  have hclamp : brightness_of_compon c =
      max 0 (min MAX_BRIGHTNESS (pyInt ((MAX_BRIGHTNESS : ℚ) * c))) := by
    rw [brightness_of_compon]
    split_ifs with h1 h2 <;> omega
  refine ⟨hclamp, fun h => ?_, fun h => ?_, ?_, ?_⟩
  · have hge : (63 : ℚ) ≤ (MAX_BRIGHTNESS : ℚ) * c := by
      rw [hMB]; push_cast; nlinarith
    have hq : (0 : ℚ) ≤ (MAX_BRIGHTNESS : ℚ) * c := by linarith
    have : (63 : Int) ≤ pyInt ((MAX_BRIGHTNESS : ℚ) * c) := by
      rw [pyInt, if_neg (by linarith)]
      exact Int.le_floor.mpr (by push_cast; linarith)
    omega
  · have hle : (MAX_BRIGHTNESS : ℚ) * c ≤ 0 := by
      rw [hMB]; push_cast; nlinarith
    have : pyInt ((MAX_BRIGHTNESS : ℚ) * c) ≤ 0 := by
      rw [pyInt]
      split_ifs with hneg
      · exact Int.ceil_le.mpr (by push_cast; linarith)
      · exact le_trans (Int.floor_le_ceil _) (Int.ceil_le.mpr (by push_cast; linarith))
    omega
  · omega
  · omega

/-- C2 (amended) witness: at `c = 2` the hypotheses of the clamping
conjunct are concrete; the brightness is `63`. -/
theorem C2_amended_witness : brightness_of_compon 2 = MAX_BRIGHTNESS :=
  (C2_amended 2).2.1 (by norm_num)

/-- C3 (counterexample): past its total duration — including the empty
child list — `Sequential.notes` returns Python `None` (the `none`
result), not the empty list of positioned colors. -/
theorem C3_counterexample :
    Effect.notes (.sequential []) 0 (fun _ => 0) 0 =
      .ok (none, .sequential [], 0) ∧
    Effect.notes (.sequential [.note (0, 0) (.palette 1)]) 1 (fun _ => 0) 0 =
      .ok (none, .sequential [.note (0, 0) (.palette 1)], 0) ∧
    (none : Option (List Note)) ≠ some [] := by
  refine ⟨?_, ?_, by simp⟩
  · simp [Effect.notes, seqNotes]
  · simp [Effect.notes, seqNotes, Effect.length, lengthSum]

/-- C3 (amended): for every child list and every tick at or past the sum
of the children's durations (duration `0` for the empty list),
`Sequential`'s render returns Python's `None` — a non-list result distinct
from the empty set — leaving every child untouched and raising no error
itself. -/
theorem C3_amended (es : List Effect) (tick : Nat) (g : Nat → Nat) (k : Nat)
    (h : lengthSum es ≤ tick) :
    Effect.notes (.sequential es) tick g k = .ok (none, .sequential es, k) := by
  rw [Effect.notes, seqNotes_past_end es tick g k h]

/-- C3 (amended) witness: a one-child sequence rendered at tick `1`. -/
theorem C3_amended_witness :
    Effect.notes (.sequential [.note (1, 2) (.palette 4)]) 1 (fun _ => 0) 0 =
      .ok (none, .sequential [.note (1, 2) (.palette 4)], 0) :=
  C3_amended [.note (1, 2) (.palette 4)] 1 (fun _ => 0) 0
    (by simp [lengthSum, Effect.length])

/-- Every member of a padding group is at most the group maximum. -/
theorem length_le_maxLength {e : Effect} {es : List Effect} (h : e ∈ es) :
    e.length ≤ maxLength es := by
  induction es with
  | nil => cases h
  | cons x rest ih =>
    rw [maxLength, List.foldr_cons]
    rcases List.mem_cons.mp h with rfl | hm
    · exact le_max_left _ _
    · exact le_trans (ih hm) (by rw [maxLength]; omega)

/-- C6: a two-child sequence's duration is the sum of the children's
durations; a tick inside the first child's window delegates to the first
child unrebased, and a tick inside the second child's window delegates to
the second child rebased by the first child's duration (the rendered value
and draw counter agree exactly; the updated tree re-wraps the rendered
child). -/
theorem C6_sequence (a b : Effect) (tick : Nat) (g : Nat → Nat) (k : Nat) :
    Effect.length (.sequential [a, b]) = a.length + b.length ∧
    (tick < a.length →
      Effect.notes (.sequential [a, b]) tick g k =
        (Effect.notes a tick g k).map
          (fun p => (p.1, .sequential [p.2.1, b], p.2.2))) ∧
    (a.length ≤ tick → tick < a.length + b.length →
      Effect.notes (.sequential [a, b]) tick g k =
        (Effect.notes b (tick - a.length) g k).map
          (fun p => (p.1, .sequential [a, p.2.1], p.2.2))) := by
  refine ⟨by simp [Effect.length, lengthSum], fun h => ?_, fun h1 h2 => ?_⟩
  · rw [Effect.notes, seqNotes.eq_2, if_neg (by omega)]
    cases h' : Effect.notes a tick g k with
    | error e => simp [h', Except.map]
    | ok p => obtain ⟨r, a', k'⟩ := p; simp [h', Except.map]
  · rw [Effect.notes, seqNotes.eq_2, if_pos (by omega), seqNotes.eq_2,
      if_neg (by omega)]
    cases h' : Effect.notes b (tick - a.length) g k with
    | error e => simp [h', Except.map]
    | ok p => obtain ⟨r, b', k'⟩ := p; simp [h', Except.map]

/-- C6 witness: two point effects; tick `1` falls in the second child's
window and is rebased to `0`. -/
theorem C6_sequence_witness :
    Effect.length (.sequential [.note (0, 0) (.palette 1),
        .note (1, 1) (.palette 2)]) =
      (Effect.note (0, 0) (.palette 1)).length +
        (Effect.note (1, 1) (.palette 2)).length ∧
    ((1 : Nat) < (Effect.note (0, 0) (.palette 1)).length →
      Effect.notes (.sequential [.note (0, 0) (.palette 1),
          .note (1, 1) (.palette 2)]) 1 (fun _ => 0) 0 =
        (Effect.notes (.note (0, 0) (.palette 1)) 1 (fun _ => 0) 0).map
          (fun p => (p.1, .sequential [p.2.1, .note (1, 1) (.palette 2)],
            p.2.2))) ∧
    ((Effect.note (0, 0) (.palette 1)).length ≤ 1 →
      1 < (Effect.note (0, 0) (.palette 1)).length +
          (Effect.note (1, 1) (.palette 2)).length →
      Effect.notes (.sequential [.note (0, 0) (.palette 1),
          .note (1, 1) (.palette 2)]) 1 (fun _ => 0) 0 =
        (Effect.notes (.note (1, 1) (.palette 2))
            (1 - (Effect.note (0, 0) (.palette 1)).length) (fun _ => 0) 0).map
          (fun p => (p.1, .sequential [.note (0, 0) (.palette 1), p.2.1],
            p.2.2))) :=
  C6_sequence (.note (0, 0) (.palette 1)) (.note (1, 1) (.palette 2)) 1
    (fun _ => 0) 0

/-- C7: for a non-empty padding group the target duration is the maximum
child duration; every padded child reports that duration; every strictly
shorter child appears wrapped with the configured pad value; and the
wrapper delegates for ticks below the child's own duration while returning
exactly the stored pad value (default empty) from the child's duration
onward. -/
theorem C7_padding (es : List Effect) (padFunc : Effect → List Note)
    (hne : es ≠ []) :
    (∀ e' ∈ pad_effects es padFunc, e'.length = maxLength es) ∧
    (∀ e ∈ es, e.length < maxLength es →
      Effect.padded e (maxLength es) (padFunc e) ∈ pad_effects es padFunc) ∧
    (∀ (e : Effect) (L : Nat) (pn : List Note) (tick : Nat) (g : Nat → Nat)
        (k : Nat),
      (tick < e.length →
        Effect.notes (.padded e L pn) tick g k =
          (Effect.notes e tick g k).map
            (fun p => (p.1, .padded p.2.1 L pn, p.2.2))) ∧
      (e.length ≤ tick →
        Effect.notes (.padded e L pn) tick g k =
          .ok (some pn, .padded e L pn, k))) := by
  have hpad : pad_effects es padFunc =
      es.map (fun e =>
        if e.length < maxLength es then .padded e (maxLength es) (padFunc e)
        else e) := by
    cases es with
    | nil => exact absurd rfl hne
    | cons x xs => simp [pad_effects]
  refine ⟨fun e' he' => ?_, fun e he hlt => ?_, fun e L pn tick g k => ⟨fun h => ?_, fun h => ?_⟩⟩
  · rw [hpad] at he'
    obtain ⟨e, he, rfl⟩ := List.mem_map.mp he'
    split_ifs with hlt
    · rw [Effect.length]
    · exact le_antisymm (length_le_maxLength he) (by omega)
  · rw [hpad]
    refine List.mem_map.mpr ⟨e, he, ?_⟩
    rw [if_pos hlt]
  · rw [Effect.notes, if_pos h]
    cases h' : Effect.notes e tick g k with
    | error er => simp [h', Except.map]
    | ok p => obtain ⟨r, e', k'⟩ := p; simp [h', Except.map]
  · rw [Effect.notes, if_neg (by omega)]

/-- C7 witness: a group of a 1-tick point and a 2-tick loop; the point is
the strictly shorter child. -/
theorem C7_padding_witness :
    (∀ e' ∈ pad_effects [.note (0, 0) (.palette 1),
        .loop (.note (1, 1) (.palette 2)) 2] (fun _ => []),
      e'.length = maxLength [.note (0, 0) (.palette 1),
        .loop (.note (1, 1) (.palette 2)) 2]) ∧
    (∀ e ∈ [Effect.note (0, 0) (.palette 1),
        .loop (.note (1, 1) (.palette 2)) 2],
      e.length < maxLength [.note (0, 0) (.palette 1),
          .loop (.note (1, 1) (.palette 2)) 2] →
      Effect.padded e (maxLength [.note (0, 0) (.palette 1),
          .loop (.note (1, 1) (.palette 2)) 2]) [] ∈
        pad_effects [.note (0, 0) (.palette 1),
          .loop (.note (1, 1) (.palette 2)) 2] (fun _ => [])) ∧
    (∀ (e : Effect) (L : Nat) (pn : List Note) (tick : Nat) (g : Nat → Nat)
        (k : Nat),
      (tick < e.length →
        Effect.notes (.padded e L pn) tick g k =
          (Effect.notes e tick g k).map
            (fun p => (p.1, .padded p.2.1 L pn, p.2.2))) ∧
      (e.length ≤ tick →
        Effect.notes (.padded e L pn) tick g k =
          .ok (some pn, .padded e L pn, k))) :=
  C7_padding [.note (0, 0) (.palette 1), .loop (.note (1, 1) (.palette 2)) 2]
    (fun _ => []) (List.cons_ne_nil _ _)

/-- C9: `Loop(a, n)` has duration `a.duration() * n` and renders
`a.render(tick mod a.duration())` at every tick (same rendered value and
draw counter; the updated tree re-wraps the rendered child), provided the
child's duration is positive — at duration `0` the source raises
`ZeroDivisionError` on `tick %` instead. -/
theorem C9_loop (a : Effect) (n : Nat) (tick : Nat) (g : Nat → Nat) (k : Nat)
    (h : 0 < a.length) :
    Effect.length (.loop a n) = a.length * n ∧
    Effect.notes (.loop a n) tick g k =
      (Effect.notes a (tick % a.length) g k).map
        (fun p => (p.1, .loop p.2.1 n, p.2.2)) := by
  refine ⟨by rw [Effect.length], ?_⟩
  rw [Effect.notes, if_neg (by omega)]
  cases h' : Effect.notes a (tick % a.length) g k with
  | error e => simp [h', Except.map]
  | ok p => obtain ⟨r, a', k'⟩ := p; simp [h', Except.map]

/-- C9 witness: a 3-fold loop of a point effect at tick `2`. -/
theorem C9_loop_witness :
    Effect.length (.loop (.note (0, 0) (.palette 1)) 3) =
      (Effect.note (0, 0) (.palette 1)).length * 3 ∧
    Effect.notes (.loop (.note (0, 0) (.palette 1)) 3) 2 (fun _ => 0) 0 =
      (Effect.notes (.note (0, 0) (.palette 1))
          (2 % (Effect.note (0, 0) (.palette 1)).length) (fun _ => 0) 0).map
        (fun p => (p.1, .loop p.2.1 3, p.2.2)) :=
  C9_loop (.note (0, 0) (.palette 1)) 3 2 (fun _ => 0) 0
    (by rw [Effect.length]; omega)

/-- The cell a message addresses: a `note_on`'s note number, or byte 6 of a
sysex payload (the note number following the 6-byte header). -/
def cellOf : Msg → Nat
  | .noteOn note _ => note
  | .sysex data => (data.getD 6 0).toNat

theorem cellOf_cellMsg (i : Nat) (c : Color) : cellOf (cellMsg i c) = i := by
  cases c <;> simp [cellMsg, rgb_message, cellOf, sysexHeader]

/-- Per-cell message count of the diff loop: one message exactly when the
two buffers disagree at that cell. -/
theorem write_buf_countP (cs : List Color) (bs : List Color) (i0 j : Nat) :
    (write_buf cs bs i0).countP (fun m => cellOf m == j) =
      if i0 ≤ j ∧ j - i0 < cs.length ∧ j - i0 < bs.length ∧
          cs.getD (j - i0) (.palette 0) ≠ bs.getD (j - i0) (.palette 0)
      then 1 else 0 := by
  induction cs generalizing bs i0 with
  | nil =>
    rw [if_neg (by rintro ⟨-, h, -⟩; simp at h)]
    simp [write_buf]
  | cons c cs ih =>
    cases bs with
    | nil =>
      rw [if_neg (by rintro ⟨-, -, h, -⟩; simp at h)]
      simp [write_buf]
    | cons b bs =>
      rw [write_buf, List.countP_append, ih bs (i0 + 1)]
      have hpre : List.countP (fun m => cellOf m == j)
          (if c ≠ b then [cellMsg i0 c] else []) =
          if c ≠ b ∧ i0 = j then 1 else 0 := by
        by_cases hcb : c = b
        · simp [hcb]
        · by_cases hij : i0 = j
          · simp [hcb, hij, List.countP_cons, cellOf_cellMsg]
          · simp [hcb, hij, List.countP_cons, cellOf_cellMsg]
      rw [hpre]
      rcases eq_or_ne i0 j with rfl | hj
      · have hA : ¬(i0 + 1 ≤ i0 ∧ i0 - (i0 + 1) < cs.length ∧
            i0 - (i0 + 1) < bs.length ∧
            cs.getD (i0 - (i0 + 1)) (.palette 0) ≠
              bs.getD (i0 - (i0 + 1)) (.palette 0)) := by
          rintro ⟨h, -⟩; omega
        have hB : (i0 ≤ i0 ∧ i0 - i0 < (c :: cs).length ∧
            i0 - i0 < (b :: bs).length ∧
            (c :: cs).getD (i0 - i0) (.palette 0) ≠
              (b :: bs).getD (i0 - i0) (.palette 0)) ↔ ¬(c = b) := by
          simp [Nat.sub_self]
        have hP : (c ≠ b ∧ i0 = i0) ↔ ¬(c = b) := by simp
        rw [if_neg hA]
        by_cases hcb : c = b
        · rw [if_neg (fun h => hP.mp h hcb), if_neg (fun h => hB.mp h hcb)]
        · rw [if_pos (hP.mpr hcb), if_pos (hB.mpr hcb)]
      · rw [if_neg (by rintro ⟨-, h⟩; exact hj h), zero_add]
        have hiff : (i0 + 1 ≤ j ∧ j - (i0 + 1) < cs.length ∧
            j - (i0 + 1) < bs.length ∧
            cs.getD (j - (i0 + 1)) (.palette 0) ≠
              bs.getD (j - (i0 + 1)) (.palette 0)) ↔
            (i0 ≤ j ∧ j - i0 < (c :: cs).length ∧
            j - i0 < (b :: bs).length ∧
            (c :: cs).getD (j - i0) (.palette 0) ≠
              (b :: bs).getD (j - i0) (.palette 0)) := by
          constructor
          · rintro ⟨h1, h2, h3, h4⟩
            have hsub : j - i0 = (j - (i0 + 1)) + 1 := by omega
            refine ⟨by omega, by simp only [List.length_cons]; omega,
              by simp only [List.length_cons]; omega, ?_⟩
            rw [hsub, List.getD_cons_succ, List.getD_cons_succ]
            exact h4
          · rintro ⟨h1, h2, h3, h4⟩
            have hsub : j - i0 = (j - (i0 + 1)) + 1 := by omega
            rw [hsub, List.getD_cons_succ, List.getD_cons_succ] at h4
            exact ⟨by omega, by simp only [List.length_cons] at h2; omega,
              by simp only [List.length_cons] at h3; omega, h4⟩
        exact if_congr hiff rfl rfl

/-- The message emitted for a differing cell is the one built from the
current buffer's color at that cell. -/
theorem mem_write_buf (cs bs : List Color) (i0 t : Nat) (h1 : t < cs.length)
    (h2 : t < bs.length)
    (hd : cs.getD t (.palette 0) ≠ bs.getD t (.palette 0)) :
    cellMsg (i0 + t) (cs.getD t (.palette 0)) ∈ write_buf cs bs i0 := by
  induction cs generalizing bs i0 t with
  | nil => simp at h1
  | cons c cs ih =>
    cases bs with
    | nil => simp at h2
    | cons b bs =>
      rw [write_buf]
      cases t with
      | zero =>
        simp only [List.getD_cons_zero] at hd ⊢
        rw [if_pos hd]
        simp
      | succ t =>
        simp only [List.getD_cons_succ] at hd ⊢
        refine List.mem_append_right _ ?_
        have := ih bs (i0 + 1) t (by simp at h1; omega) (by simp at h2; omega) hd
        simpa [Nat.add_assoc, Nat.add_comm 1 t] using this

/-- C5: for equal-length current and previous buffers, the diff step emits
exactly one message addressing a cell whose colors differ and none for a
cell whose colors agree; the emitted message for a differing cell is built
from the current buffer's color there — a `note_on` carrying the intensity
for a palette cell, the scaled sysex message for an RGB cell. -/
theorem C5_diff_emission (buf back : List Color)
    (hlen : buf.length = back.length) (j : Nat) (hj : j < buf.length) :
    ((write_buf buf back 0).countP (fun m => cellOf m == j) =
      if buf.getD j (.palette 0) ≠ back.getD j (.palette 0) then 1 else 0) ∧
    (buf.getD j (.palette 0) ≠ back.getD j (.palette 0) →
      cellMsg j (buf.getD j (.palette 0)) ∈ write_buf buf back 0) ∧
    (∀ v : Int, cellMsg j (.palette v) = .noteOn j v) ∧
    (∀ r g b : ℚ, cellMsg j (.rgb r g b) =
      .sysex (sysexHeader ++ [(j : Int), brightness_of_compon r,
        brightness_of_compon g, brightness_of_compon b])) := by
  refine ⟨?_, fun hd => ?_, fun v => rfl, fun r g b => rfl⟩
  · rw [write_buf_countP buf back 0 j]
    have hiff : (0 ≤ j ∧ j - 0 < buf.length ∧ j - 0 < back.length ∧
        buf.getD (j - 0) (.palette 0) ≠ back.getD (j - 0) (.palette 0)) ↔
        (buf.getD j (.palette 0) ≠ back.getD j (.palette 0)) := by
      constructor
      · rintro ⟨-, -, -, h⟩
        simpa using h
      · intro h
        exact ⟨Nat.zero_le _, by simpa using hj, by simpa [← hlen] using hj,
          by simpa using h⟩
    exact if_congr hiff rfl rfl
  · have := mem_write_buf buf back 0 j hj (by omega) hd
    simpa using this

/-- C5 witness: a two-cell buffer pair differing only at cell `0`. -/
theorem C5_diff_emission_witness :
    ((write_buf [Color.palette 1, Color.palette 0]
        [Color.palette 0, Color.palette 0] 0).countP
      (fun m => cellOf m == 0) =
      if ([Color.palette 1, Color.palette 0].getD 0 (.palette 0) ≠
          [Color.palette 0, Color.palette 0].getD 0 (.palette 0))
      then 1 else 0) ∧
    (([Color.palette 1, Color.palette 0].getD 0 (.palette 0) ≠
        [Color.palette 0, Color.palette 0].getD 0 (.palette 0)) →
      cellMsg 0 ([Color.palette 1, Color.palette 0].getD 0 (.palette 0)) ∈
        write_buf [Color.palette 1, Color.palette 0]
          [Color.palette 0, Color.palette 0] 0) ∧
    (∀ v : Int, cellMsg 0 (.palette v) = .noteOn 0 v) ∧
    (∀ r g b : ℚ, cellMsg 0 (.rgb r g b) =
      .sysex (sysexHeader ++ [(0 : Int), brightness_of_compon r,
        brightness_of_compon g, brightness_of_compon b])) :=
  C5_diff_emission [Color.palette 1, Color.palette 0]
    [Color.palette 0, Color.palette 0] rfl 0 (by decide)

/-- C8: the reselection step of `Random.notes` (draw `randint(0, k-2)`,
then bump the draw past the held index) never returns the held index;
as a map from draws `[0, k-2]` to indices it is injective and reaches
every index other than the held one (so a uniform draw yields a uniform
choice among the other children); operationally, any successful tick-0
render from a held selection ends holding a different, in-range index.
The first-ever selection takes the raw draw modulo `k`, uniform over all
children. -/
theorem C8_no_repeat (es : List Effect) (held : Nat) (g : Nat → Nat) (k : Nat)
    (hk : 2 ≤ es.length) (hheld : held < es.length) :
    (∀ r : Int, 0 ≤ r → r ≤ (es.length : Int) - 2 →
      (reselect held r).toNat ≠ held ∧ (reselect held r).toNat < es.length) ∧
    (∀ r1 r2 : Int, 0 ≤ r1 → r1 ≤ (es.length : Int) - 2 → 0 ≤ r2 →
      r2 ≤ (es.length : Int) - 2 →
      reselect held r1 = reselect held r2 → r1 = r2) ∧
    (∀ i : Nat, i < es.length → i ≠ held →
      ∃ r : Int, 0 ≤ r ∧ r ≤ (es.length : Int) - 2 ∧
        (reselect held r).toNat = i) ∧
    (∀ res es' cur' k',
      Effect.notes (.random es (some held)) 0 g k =
        .ok (res, .random es' cur', k') →
      ∃ i, cur' = some i ∧ i ≠ held ∧ i < es.length) ∧
    (∀ res es' cur' k',
      Effect.notes (.random es none) 0 g k =
        .ok (res, .random es' cur', k') →
      cur' = some (((g k : Int) % (es.length : Int)).toNat)) := by
  refine ⟨fun r h0 h2 => ?_, fun r1 r2 h10 h12 h20 h22 heq => ?_,
    fun i hi hne => ?_, fun res es' cur' k' hok => ?_,
    fun res es' cur' k' hok => ?_⟩
  · rw [reselect]
    split_ifs with h <;> constructor <;> omega
  · rw [reselect, reselect] at heq
    split_ifs at heq <;> omega
  · by_cases hgt : held < i
    · refine ⟨(i : Int) - 1, by omega, by omega, ?_⟩
      rw [reselect, if_pos (by omega)]
      omega
    · refine ⟨(i : Int), by omega, by omega, ?_⟩
      rw [reselect, if_neg (by omega)]
      omega
  · rw [Effect.notes] at hok
    rw [if_neg (by simp [List.isEmpty_iff]; intro h; rw [h] at hk; simp at hk)] at hok
    rw [if_pos rfl] at hok
    rw [randint, if_neg (by omega)] at hok
    set r : Int := 0 + (g k : Int) % ((es.length : Int) - 2 - 0 + 1) with hrdef
    have hr0 : 0 ≤ r := by
      rw [hrdef]
      have := Int.emod_nonneg (g k : Int)
        (b := (es.length : Int) - 2 - 0 + 1) (by omega)
      omega
    have hr2 : r ≤ (es.length : Int) - 2 := by
      rw [hrdef]
      have := Int.emod_lt_of_pos (g k : Int)
        (b := (es.length : Int) - 2 - 0 + 1) (by omega)
      omega
    have hi1 : (reselect held r).toNat ≠ held ∧
        (reselect held r).toNat < es.length := by
      rw [reselect]; split_ifs with h <;> constructor <;> omega
    obtain ⟨hi1a, hi1b⟩ := hi1
    dsimp only at hok
    rw [dif_pos hi1b] at hok
    by_cases hlen : 0 ≥ (es[(reselect held r).toNat]).length
    · rw [if_pos hlen] at hok
      simp only [Except.ok.injEq, Prod.mk.injEq, Effect.random.injEq] at hok
      exact ⟨(reselect held r).toNat, hok.2.1.2.symm, hi1a, hi1b⟩
    · rw [if_neg hlen] at hok
      cases hc : (es[(reselect held r).toNat]).notes 0 g (k + 1) with
      | error e =>
        rw [hc] at hok
        simp at hok
      | ok p =>
        obtain ⟨pr, child', k2⟩ := p
        rw [hc] at hok
        simp only [Except.ok.injEq, Prod.mk.injEq, Effect.random.injEq] at hok
        exact ⟨(reselect held r).toNat, hok.2.1.2.symm, hi1a, hi1b⟩
  · rw [Effect.notes] at hok
    rw [if_neg (by simp [List.isEmpty_iff]; intro h; rw [h] at hk; simp at hk)] at hok
    rw [if_pos rfl] at hok
    rw [randint, if_neg (by omega)] at hok
    have hmod : (0 : Int) + (g k : Int) % ((es.length : Int) - 1 - 0 + 1) =
        (g k : Int) % (es.length : Int) := by
      have : ((es.length : Int) - 1 - 0 + 1) = (es.length : Int) := by omega
      rw [this]; omega
    have hr0 : 0 ≤ (g k : Int) % (es.length : Int) :=
      Int.emod_nonneg _ (by omega)
    have hrlt : (g k : Int) % (es.length : Int) < (es.length : Int) :=
      Int.emod_lt_of_pos _ (by omega)
    rw [hmod] at hok
    have hb : ((g k : Int) % (es.length : Int)).toNat < es.length := by omega
    dsimp only at hok
    rw [dif_pos hb] at hok
    by_cases hlen : 0 ≥ (es[((g k : Int) % (es.length : Int)).toNat]).length
    · rw [if_pos hlen] at hok
      simp only [Except.ok.injEq, Prod.mk.injEq, Effect.random.injEq] at hok
      exact hok.2.1.2.symm
    · rw [if_neg hlen] at hok
      cases hc : (es[((g k : Int) % (es.length : Int)).toNat]).notes 0 g (k + 1) with
      | error e =>
        rw [hc] at hok
        simp at hok
      | ok p =>
        obtain ⟨pr, child', k2⟩ := p
        rw [hc] at hok
        simp only [Except.ok.injEq, Prod.mk.injEq, Effect.random.injEq] at hok
        exact hok.2.1.2.symm


/-- C8 witness: two point children, held index `0`. -/
theorem C8_no_repeat_witness :
    (∀ r : Int, 0 ≤ r →
      r ≤ (([Effect.note (0, 0) (.palette 1),
          .note (1, 1) (.palette 2)] : List Effect).length : Int) - 2 →
      (reselect 0 r).toNat ≠ 0 ∧
      (reselect 0 r).toNat < ([Effect.note (0, 0) (.palette 1),
          .note (1, 1) (.palette 2)] : List Effect).length) ∧
    (∀ r1 r2 : Int, 0 ≤ r1 →
      r1 ≤ (([Effect.note (0, 0) (.palette 1),
          .note (1, 1) (.palette 2)] : List Effect).length : Int) - 2 →
      0 ≤ r2 →
      r2 ≤ (([Effect.note (0, 0) (.palette 1),
          .note (1, 1) (.palette 2)] : List Effect).length : Int) - 2 →
      reselect 0 r1 = reselect 0 r2 → r1 = r2) ∧
    (∀ i : Nat, i < ([Effect.note (0, 0) (.palette 1),
          .note (1, 1) (.palette 2)] : List Effect).length → i ≠ 0 →
      ∃ r : Int, 0 ≤ r ∧
        r ≤ (([Effect.note (0, 0) (.palette 1),
            .note (1, 1) (.palette 2)] : List Effect).length : Int) - 2 ∧
        (reselect 0 r).toNat = i) ∧
    (∀ res es' cur' k',
      Effect.notes (.random [.note (0, 0) (.palette 1),
          .note (1, 1) (.palette 2)] (some 0)) 0 (fun _ => 0) 0 =
        .ok (res, .random es' cur', k') →
      ∃ i, cur' = some i ∧ i ≠ 0 ∧
        i < ([Effect.note (0, 0) (.palette 1),
            .note (1, 1) (.palette 2)] : List Effect).length) ∧
    (∀ res es' cur' k',
      Effect.notes (.random [.note (0, 0) (.palette 1),
          .note (1, 1) (.palette 2)] none) 0 (fun _ => 0) 0 =
        .ok (res, .random es' cur', k') →
      cur' = some ((((fun _ => 0) 0 : Int) %
        (([Effect.note (0, 0) (.palette 1),
            .note (1, 1) (.palette 2)] : List Effect).length : Int)).toNat)) :=
  C8_no_repeat [.note (0, 0) (.palette 1), .note (1, 1) (.palette 2)] 0
    (fun _ => 0) 0 (by decide) (by decide)

/-- The recoloring loop of `RandomColor` succeeds whenever `low ≤ high`,
consuming one draw per note, preserving positions, and producing fresh
palette colors in `[low, high]`. -/
theorem recolor_ok (ns : List Note) (low high : Int) (g : Nat → Nat) (k : Nat)
    (h : low ≤ high) :
    ∃ ns', recolor ns low high g k = .ok (ns', k + ns.length) ∧
      ns'.map Note.pos = ns.map Note.pos ∧
      ∀ m ∈ ns', ∃ v, m.color = .palette v ∧ low ≤ v ∧ v ≤ high := by
  induction ns generalizing k with
  | nil => exact ⟨[], by simp [recolor], by simp, by simp⟩
  | cons n rest ih =>
    obtain ⟨rest', h1, h2, h3⟩ := ih (k + 1)
    refine ⟨Note.mk n.pos (.palette (low + (g k : Int) % (high - low + 1))) :: rest',
      ?_, ?_, ?_⟩
    · rw [recolor, randint, if_neg (by omega)]
      dsimp only
      rw [h1]
      simp [Nat.add_comm, Nat.add_assoc, Nat.add_left_comm]
    · simp [h2]
    · intro m hm
      rcases List.mem_cons.mp hm with rfl | hm'
      · refine ⟨low + (g k : Int) % (high - low + 1), rfl, ?_, ?_⟩
        · have := Int.emod_nonneg (g k : Int) (b := high - low + 1) (by omega)
          omega
        · have := Int.emod_lt_of_pos (g k : Int) (b := high - low + 1) (by omega)
          omega
      · exact h3 m hm'

/-- C10: rendering `RandomRecolor(child, low, high)` leaves the child's
own positioned colors untouched: the recolored notes are freshly
constructed (same positions, new palette colors), the updated tree keeps
exactly the child's own post-render state, and a `Rectangle` child's
cached note list is returned intact by any subsequent render — the
recoloring never overwrites the cache. -/
theorem C10_recolor (low high : Int) (tick : Nat) (g : Nat → Nat) (k : Nat)
    (hlh : low ≤ high) :
    (∀ (child : Effect) (cl : List Note) (child' : Effect) (k1 : Nat),
      Effect.notes child tick g k = .ok (some cl, child', k1) →
      ∃ ns', Effect.notes (.randomColor child low high) tick g k =
          .ok (some ns', .randomColor child' low high, k1 + cl.length) ∧
        ns'.map Note.pos = cl.map Note.pos ∧
        ∀ m ∈ ns', ∃ v, m.color = .palette v ∧ low ≤ v ∧ v ≤ high) ∧
    (∀ (l : List Note) (g' : Nat → Nat) (k' : Nat),
      Effect.notes (.rectangle l) tick g' k' = .ok (some l, .rectangle l, k')) ∧
    (∀ l : List Note, ∃ ns',
      Effect.notes (.randomColor (.rectangle l) low high) tick g k =
        .ok (some ns', .randomColor (.rectangle l) low high, k + l.length) ∧
      ns'.map Note.pos = l.map Note.pos) := by
  have hrect : ∀ (l : List Note) (g' : Nat → Nat) (k' : Nat),
      Effect.notes (.rectangle l) tick g' k' = .ok (some l, .rectangle l, k') :=
    fun l g' k' => by rw [Effect.notes]
  have hmain : ∀ (child : Effect) (cl : List Note) (child' : Effect) (k1 : Nat),
      Effect.notes child tick g k = .ok (some cl, child', k1) →
      ∃ ns', Effect.notes (.randomColor child low high) tick g k =
          .ok (some ns', .randomColor child' low high, k1 + cl.length) ∧
        ns'.map Note.pos = cl.map Note.pos ∧
        ∀ m ∈ ns', ∃ v, m.color = .palette v ∧ low ≤ v ∧ v ≤ high := by
    intro child cl child' k1 hchild
    obtain ⟨ns', hr1, hr2, hr3⟩ := recolor_ok cl low high g k1 hlh
    refine ⟨ns', ?_, hr2, hr3⟩
    rw [Effect.notes, hchild]
    dsimp only
    rw [hr1]
  refine ⟨hmain, hrect, fun l => ?_⟩
  obtain ⟨ns', hh1, hh2, -⟩ := hmain (.rectangle l) l (.rectangle l) k (hrect l g k)
  exact ⟨ns', hh1, hh2⟩


/-- C10 witness: a one-note rectangle recolored into `[0, 5]`. -/
theorem C10_recolor_witness :
    (∀ (child : Effect) (cl : List Note) (child' : Effect) (k1 : Nat),
      Effect.notes child 0 (fun _ => 0) 0 = .ok (some cl, child', k1) →
      ∃ ns', Effect.notes (.randomColor child 0 5) 0 (fun _ => 0) 0 =
          .ok (some ns', .randomColor child' 0 5, k1 + cl.length) ∧
        ns'.map Note.pos = cl.map Note.pos ∧
        ∀ m ∈ ns', ∃ v, m.color = .palette v ∧ 0 ≤ v ∧ v ≤ 5) ∧
    (∀ (l : List Note) (g' : Nat → Nat) (k' : Nat),
      Effect.notes (.rectangle l) 0 g' k' = .ok (some l, .rectangle l, k')) ∧
    (∀ l : List Note, ∃ ns',
      Effect.notes (.randomColor (.rectangle l) 0 5) 0 (fun _ => 0) 0 =
        .ok (some ns', .randomColor (.rectangle l) 0 5, 0 + l.length) ∧
      ns'.map Note.pos = l.map Note.pos) :=
  C10_recolor 0 5 0 (fun _ => 0) 0 (by omega)


/-- Every child reports exactly the given duration. -/
def allLen (es : List Effect) (L : Nat) : Bool :=
  es.all (fun e => e.length == L)

mutual

/-- Structural well-formedness of a tree: composite groups were padded to a
common duration (as the constructors guarantee), `random` groups do not
have exactly one child and hold only in-range selections, and recoloring
bounds are ordered. -/
def wf : Effect → Bool
  | .note _ _ => true
  | .rectangle _ => true
  | .translate child _ => wf child
  | .sequential es => wfList es
  | .concurrent es => wfList es && allLen es (Effect.length (.concurrent es))
  | .loop child _ => wf child
  | .padded e _ _ => wf e
  | .random es cur =>
    wfList es && allLen es (Effect.length (.random es cur)) &&
    decide (es.length ≠ 1) &&
    (match cur with
     | none => true
     | some c => decide (c < es.length))
  | .randomColor child low high => wf child && decide (low ≤ high)
  | .colorWheel _ max_radius _ _ _ => decide (max_radius ≠ 0)

def wfList : List Effect → Bool
  | [] => true
  | e :: rest => wf e && wfList rest

end

mutual

/-- Readiness of a tree for a render at a given tick: every `random` node
the render can visit away from tick `0` already holds a selection (at a
local tick `0` the code selects on the spot, fresh or held).  The
traversal mirrors `notes`: `sequential` rebases the tick while locating
its child, `loop` reduces it modulo the child duration, `padded` stops at
the pad, and `random` may hand the unrebased tick to any child (the
selection is random), only when it is below that child's duration. -/
def ready : Effect → Nat → Bool
  | .note _ _, _ => true
  | .rectangle _, _ => true
  | .translate child _, tick => ready child tick
  | .sequential es, tick => readySeq es tick
  | .concurrent es, tick => readyList es tick
  | .loop child _, tick => ready child (tick % child.length)
  | .padded e _ _, tick => if tick < e.length then ready e tick else true
  | .random es cur, tick =>
    if tick = 0 then readyList es 0
    else
      match cur with
      | none => false
      | some held => readyAt es held tick
  | .randomColor child _ _, tick => ready child tick
  | .colorWheel _ _ _ _ _, _ => true

/-- Readiness along `Sequential`'s skip-and-rebase walk. -/
def readySeq : List Effect → Nat → Bool
  | [], _ => true
  | e :: rest, tick =>
    if tick ≥ e.length then readySeq rest (tick - e.length) else ready e tick

/-- Readiness of every member at the same tick (for `Concurrent` and for a
tick-0 `random` selection, where any child may be chosen). -/
def readyList : List Effect → Nat → Bool
  | [], _ => true
  | e :: rest, tick => ready e tick && readyList rest tick

/-- Readiness of the held child only (a `random` node away from tick `0`
renders just its held selection, and only below that child's duration). -/
def readyAt : List Effect → Nat → Nat → Bool
  | [], _, _ => true
  | e :: _, 0, tick => decide (tick ≥ e.length) || ready e tick
  | _ :: rest, i + 1, tick => readyAt rest i tick

end

theorem wfList_mem {es : List Effect} (h : wfList es = true) {e : Effect}
    (hm : e ∈ es) : wf e = true := by
  induction es with
  | nil => cases hm
  | cons x rest ih =>
    rw [wfList, Bool.and_eq_true] at h
    rcases List.mem_cons.mp hm with rfl | hm2
    · exact h.1
    · exact ih h.2 hm2

theorem readyList_mem {es : List Effect} {tick : Nat}
    (h : readyList es tick = true) {e : Effect} (hm : e ∈ es) :
    ready e tick = true := by
  induction es with
  | nil => cases hm
  | cons x rest ih =>
    rw [readyList, Bool.and_eq_true] at h
    rcases List.mem_cons.mp hm with rfl | hm2
    · exact h.1
    · exact ih h.2 hm2

/-- Unfolding of `readyAt` at an in-range index. -/
theorem readyAt_spec (es : List Effect) (held tick : Nat)
    (h : held < es.length) :
    readyAt es held tick =
      (decide (tick ≥ (es[held]).length) || ready (es[held]) tick) := by
  induction es generalizing held with
  | nil => simp at h
  | cons e rest ih =>
    cases held with
    | zero => rw [readyAt]; rfl
    | succ i =>
      rw [readyAt, ih i (by simpa using h)]
      rfl

theorem allLen_mem {es : List Effect} {L : Nat} (h : allLen es L = true)
    {e : Effect} (hm : e ∈ es) : e.length = L := by
  rw [allLen, List.all_eq_true] at h
  simpa using h e hm

/-- Base case of readiness at tick `0`: every member of a group, given the
inductive hypothesis for members. -/
theorem readyListZeroAux (N : Nat)
    (ih : ∀ e : Effect, sizeOf e < N → ready e 0 = true) :
    ∀ es : List Effect, sizeOf es ≤ N → readyList es 0 = true := by
  intro es
  induction es with
  | nil =>
    intro _
    rw [readyList]
  | cons e rest ihr =>
    intro hsz
    rw [readyList, Bool.and_eq_true]
    refine ⟨ih e ?_, ihr ?_⟩
    · simp only [List.cons.sizeOf_spec] at hsz
      omega
    · simp only [List.cons.sizeOf_spec] at hsz
      omega

/-- Readiness at tick `0` along the sequential walk, given the inductive
hypothesis for members. -/
theorem readySeqZeroAux (N : Nat)
    (ih : ∀ e : Effect, sizeOf e < N → ready e 0 = true) :
    ∀ es : List Effect, sizeOf es ≤ N → readySeq es 0 = true := by
  intro es
  induction es with
  | nil =>
    intro _
    rw [readySeq]
  | cons e rest ihr =>
    intro hsz
    rw [readySeq]
    by_cases hskip : 0 ≥ e.length
    · rw [if_pos hskip, Nat.zero_sub]
      refine ihr ?_
      simp only [List.cons.sizeOf_spec] at hsz
      omega
    · rw [if_neg hskip]
      refine ih e ?_
      simp only [List.cons.sizeOf_spec] at hsz
      omega

/-- Every tree is ready at tick `0`: a fresh first render (all `random`
selections still `None`) is inside the totality theorem's hypotheses. -/
theorem readyZeroAux : ∀ N : Nat, ∀ e : Effect, sizeOf e < N →
    ready e 0 = true := by
  intro N
  induction N with
  | zero =>
    intro e h
    omega
  | succ N ih =>
    intro e hsz
    cases e with
    | note pos color => rw [ready]
    | rectangle cache => rw [ready]
    | colorWheel center r th dth len => rw [ready]
    | translate child offset =>
      rw [ready]
      refine ih child ?_
      simp only [Effect.translate.sizeOf_spec] at hsz
      omega
    | sequential es =>
      rw [ready]
      refine readySeqZeroAux N ih es ?_
      simp only [Effect.sequential.sizeOf_spec] at hsz
      omega
    | concurrent es =>
      rw [ready]
      refine readyListZeroAux N ih es ?_
      simp only [Effect.concurrent.sizeOf_spec] at hsz
      omega
    | loop child n =>
      rw [ready, Nat.zero_mod]
      refine ih child ?_
      simp only [Effect.loop.sizeOf_spec] at hsz
      omega
    | padded eff len pn =>
      rw [ready]
      by_cases h : 0 < eff.length
      · rw [if_pos h]
        refine ih eff ?_
        simp only [Effect.padded.sizeOf_spec] at hsz
        omega
      · rw [if_neg h]
    | random es cur =>
      rw [ready.eq_def]
      dsimp only
      rw [if_pos rfl]
      refine readyListZeroAux N ih es ?_
      simp only [Effect.random.sizeOf_spec] at hsz
      omega
    | randomColor child low high =>
      rw [ready]
      refine ih child ?_
      simp only [Effect.randomColor.sizeOf_spec] at hsz
      omega

/-- The child-locating loop of `Sequential` succeeds on any in-range tick when
every child renders totally. -/
theorem seqTotalAux (N : Nat)
    (ih : ∀ e : Effect, sizeOf e < N → ∀ (tick : Nat) (g : Nat → Nat) (k : Nat),
      wf e = true → ready e tick = true → tick < e.length →
      ∃ ns e' k', Effect.notes e tick g k = .ok (some ns, e', k')) :
    ∀ es : List Effect, sizeOf es ≤ N → ∀ (tick : Nat) (g : Nat → Nat) (k : Nat),
    wfList es = true → readySeq es tick = true → tick < lengthSum es →
    ∃ ns es' k', seqNotes es tick g k = .ok (some ns, es', k') := by
  intro es
  induction es with
  | nil =>
    intro _ tick g k _ _ ht
    rw [lengthSum] at ht
    omega
  | cons e rest ihr =>
    intro hsz tick g k hwf hsel ht
    rw [wfList, Bool.and_eq_true] at hwf
    rw [readySeq] at hsel
    rw [lengthSum] at ht
    have hsze : sizeOf e < N := by
      simp only [List.cons.sizeOf_spec] at hsz
      omega
    have hszr : sizeOf rest ≤ N := by
      simp only [List.cons.sizeOf_spec] at hsz
      omega
    by_cases hskip : tick ≥ e.length
    · rw [if_pos hskip] at hsel
      obtain ⟨ns, es2, k2, hs⟩ :=
        ihr hszr (tick - e.length) g k hwf.2 hsel (by omega)
      refine ⟨ns, e :: es2, k2, ?_⟩
      rw [seqNotes, if_pos hskip, hs]
    · rw [if_neg hskip] at hsel
      obtain ⟨ns, e2, k2, hn⟩ :=
        ih e hsze tick g k hwf.1 hsel (by omega)
      refine ⟨ns, e2 :: rest, k2, ?_⟩
      rw [seqNotes, if_neg hskip, hn]

/-- The accumulation loop of `Concurrent` succeeds at any tick below the common
child duration when every child renders totally. -/
theorem concTotalAux (N : Nat)
    (ih : ∀ e : Effect, sizeOf e < N → ∀ (tick : Nat) (g : Nat → Nat) (k : Nat),
      wf e = true → ready e tick = true → tick < e.length →
      ∃ ns e' k', Effect.notes e tick g k = .ok (some ns, e', k')) :
    ∀ es : List Effect, sizeOf es ≤ N → ∀ (L tick : Nat) (g : Nat → Nat) (k : Nat),
    wfList es = true → readyList es tick = true → allLen es L = true →
    tick < L →
    ∃ ns es' k', concNotes es tick g k = .ok (ns, es', k') := by
  intro es
  induction es with
  | nil =>
    intro _ L tick g k _ _ _ _
    exact ⟨[], [], k, by rw [concNotes]⟩
  | cons e rest ihr =>
    intro hsz L tick g k hwf hsel hlen ht
    rw [wfList, Bool.and_eq_true] at hwf
    rw [readyList, Bool.and_eq_true] at hsel
    have hlene : e.length = L := allLen_mem hlen (List.mem_cons_self e rest)
    have hlenr : allLen rest L = true := by
      rw [allLen, List.all_eq_true] at hlen ⊢
      intro x hx
      exact hlen x (List.mem_cons_of_mem e hx)
    have hsze : sizeOf e < N := by
      simp only [List.cons.sizeOf_spec] at hsz
      omega
    have hszr : sizeOf rest ≤ N := by
      simp only [List.cons.sizeOf_spec] at hsz
      omega
    obtain ⟨ns, e2, k2, hn⟩ := ih e hsze tick g k hwf.1 hsel.1 (by omega)
    obtain ⟨acc, rest2, k3, hrest⟩ :=
      ihr hszr L tick g k2 hwf.2 hsel.2 hlenr ht
    refine ⟨ns ++ acc, e2 :: rest2, k3, ?_⟩
    rw [concNotes, hn]
    dsimp only
    rw [hrest]

/-- Totality of render over the documented domain, by strong induction on
tree size. -/
theorem notesTotalAux : ∀ N : Nat, ∀ e : Effect, sizeOf e < N →
    ∀ (tick : Nat) (g : Nat → Nat) (k : Nat),
    wf e = true → ready e tick = true → tick < e.length →
    ∃ ns e' k', Effect.notes e tick g k = .ok (some ns, e', k') := by
  intro N
  induction N with
  | zero =>
    intro e h
    omega
  | succ N ih =>
    intro e hsz tick g k hwf hsel ht
    cases e with
    | note pos color =>
      exact ⟨[⟨pos, color⟩], .note pos color, k, by rw [Effect.notes]⟩
    | rectangle cache =>
      exact ⟨cache, .rectangle cache, k, by rw [Effect.notes]⟩
    | colorWheel center r th dth len =>
      rw [wf, decide_eq_true_eq] at hwf
      rw [Effect.length] at ht
      refine ⟨wheelNotes center r th ((tick : ℚ) / (len : ℚ) * dth),
        .colorWheel center r th dth len, k, ?_⟩
      rw [Effect.notes, if_neg (by omega), if_neg hwf]
    | translate child offset =>
      rw [wf] at hwf
      rw [ready] at hsel
      rw [Effect.length] at ht
      have hszc : sizeOf child < N := by
        simp only [Effect.translate.sizeOf_spec] at hsz
        omega
      obtain ⟨ns, child2, k2, hc⟩ := ih child hszc tick g k hwf hsel ht
      refine ⟨ns.map (shiftNote offset), .translate child2 offset, k2, ?_⟩
      rw [Effect.notes, hc]
    | sequential es =>
      rw [wf] at hwf
      rw [ready] at hsel
      rw [Effect.length] at ht
      have hszc : sizeOf es ≤ N := by
        simp only [Effect.sequential.sizeOf_spec] at hsz
        omega
      obtain ⟨ns, es2, k2, hs⟩ :=
        seqTotalAux N (fun e h => ih e h) es hszc tick g k hwf hsel ht
      refine ⟨ns, .sequential es2, k2, ?_⟩
      rw [Effect.notes, hs]
    | concurrent es =>
      rw [wf, Bool.and_eq_true] at hwf
      rw [ready] at hsel
      have hszc : sizeOf es ≤ N := by
        simp only [Effect.concurrent.sizeOf_spec] at hsz
        omega
      obtain ⟨ns, es2, k2, hs⟩ :=
        concTotalAux N (fun e h => ih e h) es hszc
          (Effect.length (.concurrent es)) tick g k hwf.1 hsel hwf.2 ht
      refine ⟨ns, .concurrent es2, k2, ?_⟩
      rw [Effect.notes, hs]
    | loop child n =>
      rw [wf] at hwf
      rw [ready] at hsel
      rw [Effect.length] at ht
      have hpos : 0 < child.length := by
        rcases Nat.eq_zero_or_pos child.length with h0 | h0
        · rw [h0, Nat.zero_mul] at ht
          omega
        · exact h0
      have hszc : sizeOf child < N := by
        simp only [Effect.loop.sizeOf_spec] at hsz
        omega
      obtain ⟨ns, child2, k2, hc⟩ :=
        ih child hszc (tick % child.length) g k hwf hsel
          (Nat.mod_lt _ hpos)
      refine ⟨ns, .loop child2 n, k2, ?_⟩
      rw [Effect.notes, if_neg (by omega), hc]
    | padded eff len pn =>
      rw [wf] at hwf
      rw [ready] at hsel
      have hszc : sizeOf eff < N := by
        simp only [Effect.padded.sizeOf_spec] at hsz
        omega
      by_cases hpt : tick < eff.length
      · rw [if_pos hpt] at hsel
        obtain ⟨ns, eff2, k2, hc⟩ := ih eff hszc tick g k hwf hsel hpt
        refine ⟨ns, .padded eff2 len pn, k2, ?_⟩
        rw [Effect.notes, if_pos hpt, hc]
      · refine ⟨pn, .padded eff len pn, k, ?_⟩
        rw [Effect.notes, if_neg hpt]
    | randomColor child low high =>
      rw [wf, Bool.and_eq_true, decide_eq_true_eq] at hwf
      rw [ready] at hsel
      rw [Effect.length] at ht
      have hszc : sizeOf child < N := by
        simp only [Effect.randomColor.sizeOf_spec] at hsz
        omega
      obtain ⟨cl, child2, k1, hc⟩ := ih child hszc tick g k hwf.1 hsel ht
      obtain ⟨ns2, hr1, hr2, hr3⟩ := recolor_ok cl low high g k1 hwf.2
      refine ⟨ns2, .randomColor child2 low high, k1 + cl.length, ?_⟩
      rw [Effect.notes, hc]
      dsimp only
      rw [hr1]
    | random es cur =>
      rw [ready.eq_def] at hsel
      dsimp only at hsel
      have hempty : ¬(es.isEmpty = true) := by
        intro h
        rw [List.isEmpty_iff] at h
        subst h
        simp only [Effect.length] at ht
        omega
      have hlen1 : 1 ≤ es.length := by
        cases es with
        | nil => simp at hempty
        | cons a b => simp
      have hszes : sizeOf es ≤ N := by
        simp only [Effect.random.sizeOf_spec] at hsz
        omega
      by_cases htick : tick = 0
      · subst htick
        rw [if_pos rfl] at hsel
        cases cur with
        | none =>
          simp only [wf, Bool.and_eq_true, decide_eq_true_eq] at hwf
          obtain ⟨⟨⟨hwfL, hallen⟩, hne1⟩, -⟩ := hwf
          have hr0 : 0 ≤ (g k : Int) % ((es.length : Int) - 1 - 0 + 1) :=
            Int.emod_nonneg _ (by omega)
          have hrlt : (g k : Int) % ((es.length : Int) - 1 - 0 + 1) <
              (es.length : Int) := by
            have := Int.emod_lt_of_pos (g k : Int)
              (b := (es.length : Int) - 1 - 0 + 1) (by omega)
            omega
          have hi : ((0 : Int) +
              (g k : Int) % ((es.length : Int) - 1 - 0 + 1)).toNat <
              es.length := by omega
          have hmem := List.getElem_mem hi
          have hcl : (es[((0 : Int) +
              (g k : Int) % ((es.length : Int) - 1 - 0 + 1)).toNat]).length =
              Effect.length (.random es none) := allLen_mem hallen hmem
          have hszc : sizeOf (es[((0 : Int) +
              (g k : Int) % ((es.length : Int) - 1 - 0 + 1)).toNat]) < N := by
            have := List.sizeOf_lt_of_mem hmem
            omega
          obtain ⟨ns, child2, k2, hc⟩ := ih _ hszc 0 g (k + 1)
            (wfList_mem hwfL hmem) (readyList_mem hsel hmem) (by omega)
          refine ⟨ns, .random (es.set ((0 : Int) +
              (g k : Int) % ((es.length : Int) - 1 - 0 + 1)).toNat child2)
            (some ((0 : Int) +
              (g k : Int) % ((es.length : Int) - 1 - 0 + 1)).toNat), k2, ?_⟩
          rw [Effect.notes, if_neg hempty, if_pos rfl, randint,
            if_neg (by omega)]
          dsimp only
          rw [dif_pos hi, if_neg (by omega), hc]
        | some held =>
          simp only [wf, Bool.and_eq_true, decide_eq_true_eq] at hwf
          obtain ⟨⟨⟨hwfL, hallen⟩, hne1⟩, hheld⟩ := hwf
          have hlen2 : 2 ≤ es.length := by omega
          have hr0 : 0 ≤ (g k : Int) % ((es.length : Int) - 2 - 0 + 1) :=
            Int.emod_nonneg _ (by omega)
          have hr2 : (g k : Int) % ((es.length : Int) - 2 - 0 + 1) ≤
              (es.length : Int) - 2 := by
            have := Int.emod_lt_of_pos (g k : Int)
              (b := (es.length : Int) - 2 - 0 + 1) (by omega)
            omega
          have hi : (reselect held ((0 : Int) +
              (g k : Int) % ((es.length : Int) - 2 - 0 + 1))).toNat <
              es.length := by
            rw [reselect]
            split_ifs with h <;> omega
          have hmem := List.getElem_mem hi
          have hcl : (es[(reselect held ((0 : Int) +
              (g k : Int) % ((es.length : Int) - 2 - 0 + 1))).toNat]).length =
              Effect.length (.random es (some held)) := allLen_mem hallen hmem
          have hszc : sizeOf (es[(reselect held ((0 : Int) +
              (g k : Int) % ((es.length : Int) - 2 - 0 + 1))).toNat]) < N := by
            have := List.sizeOf_lt_of_mem hmem
            omega
          obtain ⟨ns, child2, k2, hc⟩ := ih _ hszc 0 g (k + 1)
            (wfList_mem hwfL hmem) (readyList_mem hsel hmem) (by omega)
          refine ⟨ns, .random (es.set (reselect held ((0 : Int) +
              (g k : Int) % ((es.length : Int) - 2 - 0 + 1))).toNat child2)
            (some (reselect held ((0 : Int) +
              (g k : Int) % ((es.length : Int) - 2 - 0 + 1))).toNat), k2, ?_⟩
          rw [Effect.notes, if_neg hempty, if_pos rfl, randint,
            if_neg (by omega)]
          dsimp only
          rw [dif_pos hi, if_neg (by omega), hc]
      · rw [if_neg htick] at hsel
        cases cur with
        | none => simp at hsel
        | some held =>
          simp only [wf, Bool.and_eq_true, decide_eq_true_eq] at hwf
          obtain ⟨⟨⟨hwfL, hallen⟩, hne1⟩, hheld⟩ := hwf
          have hcl : (es[held]).length =
              Effect.length (.random es (some held)) :=
            allLen_mem hallen (List.getElem_mem hheld)
          dsimp only at hsel
          rw [readyAt_spec es held tick hheld, Bool.or_eq_true,
            decide_eq_true_eq] at hsel
          have hready : ready (es[held]) tick = true := by
            rcases hsel with h | h
            · omega
            · exact h
          have hszc : sizeOf (es[held]) < N := by
            have := List.sizeOf_lt_of_mem (List.getElem_mem hheld)
            omega
          obtain ⟨ns, child2, k2, hc⟩ := ih _ hszc tick g k
            (wfList_mem hwfL (List.getElem_mem hheld)) hready (by omega)
          refine ⟨ns, .random (es.set held child2) (some held), k2, ?_⟩
          rw [Effect.notes, if_neg hempty, if_neg htick]
          dsimp only
          rw [dif_pos hheld, if_neg (by omega), hc]

/-- C4 (counterexample): two in-domain failures.  `RandomChoice` over
exactly one (padded) child is inside the documented domain ("any child
list", consecutive tick-0 re-evaluations), yet the second tick-0 render
raises `ValueError`: the code first selects the only child (index 0), and
the reselection branch then calls `randint(0, -1)`.  And a `ColorWheel`
with radius `0` raises `ZeroDivisionError` at its very first in-domain
tick, from `(x - center) / max_radius`. -/
theorem C4_counterexample :
    Effect.notes (Random [.note (0, 0) (.palette 1)]) 0 (fun _ => 0) 0 =
      .ok (some [⟨(0, 0), .palette 1⟩],
        .random [.note (0, 0) (.palette 1)] (some 0), 1) ∧
    Effect.notes (.random [.note (0, 0) (.palette 1)] (some 0)) 0
        (fun _ => 0) 1 =
      .error .valueError ∧
    Effect.notes (.colorWheel (7/2, 7/2) 0 0 (2 * piQ) 1) 0 (fun _ => 0) 0 =
      .error .zeroDiv := by
  refine ⟨?_, ?_, ?_⟩
  · simp [Random, pad_effects, maxLength, Effect.length, Effect.notes, randint]
  · simp [Effect.notes, randint]
  · simp [Effect.notes]

/-- C4 (amended): render and duration are exception-free over the
documented domain for every variant of the algebra *except* the failures
the counterexample exhibits (`RandomChoice` reselecting among one child,
`RandomChoice` reaching a nonzero tick with no held selection — Python
indexes with `None` —, `ColorWheel` with radius `0`): for every
structurally well-formed tree (`wf`: composite groups padded to one
duration as the constructors guarantee, no one-child random group,
in-range held selections, ordered recolor bounds, nonzero wheel radius)
that is ready at the tick (`ready`: every random node the render visits
away from tick `0` already holds a selection), every in-range tick renders
to an actual note list with no error — and every tree whatsoever is ready
at tick `0`, so fresh first renders are covered. -/
theorem C4_amended :
    (∀ e : Effect, ready e 0 = true) ∧
    (∀ (e : Effect) (tick : Nat) (g : Nat → Nat) (k : Nat),
      wf e = true → ready e tick = true → tick < e.length →
      ∃ ns e' k', Effect.notes e tick g k = .ok (some ns, e', k')) :=
  ⟨fun e => readyZeroAux (sizeOf e + 1) e (by omega),
    fun e tick g k hwf hsel ht =>
      notesTotalAux (sizeOf e + 1) e (by omega) tick g k hwf hsel ht⟩

/-- C4 (amended) witness: a fresh two-child random group (no selection
held yet) renders tick 0 without error. -/
theorem C4_amended_witness :
    ∃ ns e' k',
      Effect.notes (.random [.note (0, 0) (.palette 1),
          .note (1, 1) (.palette 2)] none) 0 (fun _ => 0) 0 =
        .ok (some ns, e', k') :=
  C4_amended.2 (.random [.note (0, 0) (.palette 1),
      .note (1, 1) (.palette 2)] none) 0 (fun _ => 0) 0
    (by simp [wf, wfList, allLen, Effect.length])
    (by simp [ready, readyList])
    (by simp [Effect.length])

end LaunchpadFw
